import Mathlib

/-!
Verification development for the model-maker-canvas backend.

The Python sources under `src/backend` are shallowly embedded over `ℚ`:
numpy/torch float arrays become `List ℚ` / `List (ℚ × ℚ × ℚ)`, and
comparisons of a Euclidean norm (a nonnegative real) against a threshold
are embedded as comparisons of the squared norm against the squared
threshold, which is equivalent and keeps every definition executable.
External library calls (open3d ICP, scipy's sparse solver internals) are
modelled as explicit parameters or exact-arithmetic equivalents, as noted
at each definition.
-/

namespace ModelMaker

/-- A 3-vector of rationals (one point or one row of an `(N,3)` array). -/
abbrev Vec3 := ℚ × ℚ × ℚ

/-- Componentwise addition of 3-vectors. -/
def vadd3 (a b : Vec3) : Vec3 := (a.1 + b.1, a.2.1 + b.2.1, a.2.2 + b.2.2)

/-- Componentwise subtraction of 3-vectors. -/
def vsub3 (a b : Vec3) : Vec3 := (a.1 - b.1, a.2.1 - b.2.1, a.2.2 - b.2.2)

/-- Scalar multiple of a 3-vector. -/
def vsmul3 (c : ℚ) (a : Vec3) : Vec3 := (c * a.1, c * a.2.1, c * a.2.2)

/-- Squared Euclidean distance between two points. -/
def distSq3 (a b : Vec3) : ℚ :=
  (a.1 - b.1) ^ 2 + (a.2.1 - b.2.1) ^ 2 + (a.2.2 - b.2.2) ^ 2

/-- `np.clip` / `torch.clamp`: `min (max x lo) hi`. -/
def clipQ (x lo hi : ℚ) : ℚ := min (max x lo) hi

/-- Maximum of a list of rationals (`np.max` over a nonempty axis);
0 for the empty list, which the sources never query. -/
def listMax : List ℚ → ℚ
  | [] => 0
  | x :: xs => xs.foldl max x

/-- Minimum of a list of rationals. -/
def listMin : List ℚ → ℚ
  | [] => 0
  | x :: xs => xs.foldl min x

/-! ## `src/backend/units.py` -/

/-- Result record of `normalize_units` (`UnitResult` dataclass). -/
structure UnitResult where
  points : List Vec3
  units_inferred : String
  unit_scale_applied : ℚ
  warnings : List String
  deriving Repr, DecidableEq

/-- Squared bounding-box diagonal of a cloud:
`extent = max − min` per axis, `diag = ‖extent‖`.  The source compares
`diag` (nonnegative) with `1.0` and `0.02`; this embedding carries
`diag²` and compares with `1` and `1/2500`, which is equivalent. -/
def bboxDiagSq (pts : List Vec3) : ℚ :=
  let xs := pts.map (fun p => p.1)
  let ys := pts.map (fun p => p.2.1)
  let zs := pts.map (fun p => p.2.2)
  (listMax xs - listMin xs) ^ 2 + (listMax ys - listMin ys) ^ 2 +
    (listMax zs - listMin zs) ^ 2

/-- `normalize_units` from `src/backend/units.py` lines 18–58.
A positive `override_scale` wins, then an override unit label in
{"meters", "millimeters"}, then the bounding-box-diagonal heuristic.
The scaled cloud is produced only when the factor differs from 1. -/
def normalize_units (pts : List Vec3) (override_scale : Option ℚ)
    (override_units : Option String) : UnitResult :=
  if pts = [] then ⟨pts, "unknown", 1, ["POINTCLOUD_EMPTY"]⟩
  else
    let diagSq := bboxDiagSq pts
    let osPos : Bool := match override_scale with
      | some s => decide (0 < s)
      | none => false
    let choice : String × ℚ × List String :=
      if osPos then
        ("override", override_scale.getD 1, [])
      else if override_units = some "meters" ∨ override_units = some "millimeters" then
        (override_units.getD "", if override_units = some "millimeters" then 1/1000 else 1, [])
      else if 1 < diagSq then
        ("millimeters", 1/1000, [])
      else if diagSq < 1/2500 then
        ("unknown", 1, ["UNIT_SUSPECT"])
      else
        ("meters", 1, [])
    let scale := choice.2.1
    let outPts := if scale ≠ 1 then pts.map (vsmul3 scale) else pts
    ⟨outPts, choice.1, scale, choice.2.2⟩

/-! ## `src/backend/fit_types.py` and `src/backend/qc.py` -/

/-- `FitConfig` (pydantic model) with its field defaults. -/
structure FitConfig where
  iters_pose : ℕ := 80
  iters_expr : ℕ := 120
  iters_shape : ℕ := 160
  w_landmark : ℚ := 2
  w_chamfer : ℚ := 1
  w_point2plane : ℚ := 1/2
  w_prior_shape : ℚ := 1/200
  w_prior_expr : ℚ := 1/200
  w_prior_jaw : ℚ := 1/50
  huber_delta : ℚ := 1/100
  w_nose_multiplier : ℚ := 3
  nose_radius_mm : ℚ := 30
  nose_kNN : Option ℕ := none
  w_mouth_multiplier : ℚ := 5/2
  jaw_max_rad : ℚ := 7/20
  trim_percentile : Option ℚ := some (49/50)
  max_landmark_mm : ℚ := 4
  max_surface_mm_p95 : ℚ := 6
  max_nose_mm_p95 : ℚ := 4
  deriving Repr, DecidableEq

/-- The four entries of the `metrics` dict that `build_qc` reads. -/
structure SurfaceMetrics where
  p95_mm : ℚ
  nose_p95_mm : ℚ
  landmark_rms_mm : ℚ
  outlier_ratio : ℚ
  deriving Repr, DecidableEq

/-- `QCResult` (pydantic model). -/
structure QCResult where
  pass_fit : Bool
  confidence : ℚ
  warnings : List String
  deriving Repr, DecidableEq

/-- `build_qc` from `src/backend/qc.py` lines 6–28.  The sequential
`warnings.append` calls become a concatenation in source order, and the
sequentially cleared `pass_fit` flag becomes a single disjunction test. -/
def build_qc (m : SurfaceMetrics) (c : FitConfig) : QCResult :=
  let warnA : List String :=
    if m.p95_mm > c.max_surface_mm_p95 then ["HIGH_SURFACE_ERROR"] else []
  let warnB : List String :=
    if m.nose_p95_mm > c.max_nose_mm_p95 then ["HIGH_NOSE_ERROR"] else []
  let warnC : List String :=
    if m.landmark_rms_mm > c.max_landmark_mm then ["LANDMARK_MISMATCH"] else []
  let warnD : List String :=
    if m.outlier_ratio > 1/10 then ["HIGH_OUTLIER_RATIO"] else []
  let pass_fit : Bool :=
    if m.p95_mm > c.max_surface_mm_p95 ∨ m.nose_p95_mm > c.max_nose_mm_p95 ∨
        m.landmark_rms_mm > c.max_landmark_mm then false else true
  let confidence : ℚ :=
    1 - min (m.p95_mm / (c.max_surface_mm_p95 * 2)) (1/2)
      - min (m.nose_p95_mm / (c.max_nose_mm_p95 * 2)) (3/10)
      - min (m.landmark_rms_mm / (c.max_landmark_mm * 2)) (1/5)
  { pass_fit := pass_fit
    confidence := max 0 (min 1 confidence)
    warnings := warnA ++ warnB ++ warnC ++ warnD }

/-- The orchestrator's post-fit QC update, `src/backend/main.py`
lines 497–503: append `POINTCLOUD_SPARSE` / `FIT_TIMEOUT` and clear
`pass_fit` when the corresponding flag is set. -/
def process_scan_qc_update (qc : QCResult) (sparse_mode timed_out : Bool) :
    QCResult :=
  let qc1 := if sparse_mode then
    { qc with warnings := qc.warnings ++ ["POINTCLOUD_SPARSE"], pass_fit := false }
    else qc
  if timed_out then
    { qc1 with warnings := qc1.warnings ++ ["FIT_TIMEOUT"], pass_fit := false }
    else qc1

/-! ## `src/backend/flame_fit.py` -/

/-- Sparse-cloud gate and stage schedule of `fit_flame_mesh`
(`src/backend/flame_fit.py` lines 171–185 and 387–407), as a function of
the downsampled target's point count.  `< 200` points raise
`ValueError("Point cloud too sparse …")`; `< 500` points set
`sparse_mode` (the `> 2000` branch only subsamples and never changes the
gate).  Stage 1 ("rigid") always runs; stages "expression" and "shape"
run only when neither `sparse_mode` nor `freeze_expression` holds. -/
def fitSparseGate (downsampled_count : ℕ) (freeze_expression : Bool) :
    Except String (Bool × List String) :=
  if downsampled_count < 200 then
    Except.error "Point cloud too sparse for FLAME fitting"
  else
    let sparse_mode : Bool := decide (downsampled_count < 500)
    let stages : List String :=
      "rigid" :: (if ¬sparse_mode ∧ ¬freeze_expression then ["expression", "shape"] else [])
    Except.ok (sparse_mode, stages)

/-- The optimizer state of `fit_flame_mesh`: the five gradient-tracked
tensors, flattened to lists/scalars over `ℚ`. -/
structure FlameState where
  shape_params : List ℚ
  expression_params : List ℚ
  pose_params : List ℚ
  translation : List ℚ
  scale : ℚ
  deriving Repr, DecidableEq

/-- The `torch.no_grad()` projection applied after every `optimizer.step()`
in `optimize_stage` (`src/backend/flame_fit.py` lines 360–368):
clamp shape and expression to `[-4, 4]`, the whole pose vector to
`[-1, 1]`, then the jaw entries (`pose[3:]`) to
`[-jaw_max_rad, jaw_max_rad]` and, under `freeze_jaw`, reset them to 0;
finally clamp scale to `[0.5, 2]`. -/
def clamp_after_step (jaw_max_rad : ℚ) (freeze_jaw : Bool) (s : FlameState) :
    FlameState :=
  let pose1 := s.pose_params.map (fun x => clipQ x (-1) 1)
  let head := pose1.take 3
  let jaw := (pose1.drop 3).map (fun x => clipQ x (-jaw_max_rad) jaw_max_rad)
  let jaw2 := if freeze_jaw then jaw.map (fun _ => (0 : ℚ)) else jaw
  { shape_params := s.shape_params.map (fun x => clipQ x (-4) 4)
    expression_params := s.expression_params.map (fun x => clipQ x (-4) 4)
    pose_params := head ++ jaw2
    translation := s.translation
    scale := clipQ s.scale (1/2) 2 }

/-- One optimizer stage as a fold: each Adam step (an opaque update of
the state, since the gradient of the FLAME losses is external data) is
followed by the box projection, exactly as in `optimize_stage`. -/
def run_stage_steps (jaw_max_rad : ℚ) (freeze_jaw : Bool)
    (updates : List (FlameState → FlameState)) (s0 : FlameState) : FlameState :=
  updates.foldl (fun s u => clamp_after_step jaw_max_rad freeze_jaw (u s)) s0

/-- Initial state of `fit_flame_mesh` (lines 188–192 and 234–236):
shape, expression and pose start at zero (the jaw prezeroing under
`freeze_jaw` is a no-op on zeros); translation and scale are overwritten
with data-dependent centroid/extent values, taken as parameters here. -/
def init_flame_state (translation0 : List ℚ) (scale0 : ℚ) : FlameState :=
  { shape_params := List.replicate 100 0
    expression_params := List.replicate 50 0
    pose_params := List.replicate 6 0
    translation := translation0
    scale := scale0 }

/-- The box-constraint invariant claimed for the optimizer state. -/
def state_in_bounds (jaw_max_rad : ℚ) (freeze_jaw : Bool) (s : FlameState) :
    Prop :=
  (∀ x ∈ s.shape_params, -4 ≤ x ∧ x ≤ 4) ∧
  (∀ x ∈ s.expression_params, -4 ≤ x ∧ x ≤ 4) ∧
  (∀ x ∈ s.pose_params.take 3, -1 ≤ x ∧ x ≤ 1) ∧
  (∀ x ∈ s.pose_params.drop 3, -jaw_max_rad ≤ x ∧ x ≤ jaw_max_rad) ∧
  (1/2 ≤ s.scale ∧ s.scale ≤ 2) ∧
  (freeze_jaw = true → ∀ x ∈ s.pose_params.drop 3, x = 0)

/-! ## `src/backend/nonrigid_icp.py` — Laplacian -/

/-- A face as an index triple. -/
abbrev Face := ℕ × ℕ × ℕ

/-- The six directed insertions made for one face by the adjacency loop
of `build_laplacian_matrix` (lines 99–107): for each of the three
consecutive pairs `(face[i], face[(i+1)%3])`, both directions. -/
def facePairs (f : Face) : List (ℕ × ℕ) :=
  [(f.1, f.2.1), (f.2.1, f.2.2), (f.2.2, f.1),
   (f.2.1, f.1), (f.2.2, f.2.1), (f.1, f.2.2)]

/-- The Python `adjacency[i]` set, as a duplicate-free list: the second
components of all directed pairs leaving `i`. -/
def adjacency_neighbors (faces : List Face) (i : ℕ) : List ℕ :=
  (((faces.flatMap facePairs).filter (fun e => e.1 == i)).map (fun e => e.2)).dedup

/-- The triplets one loop turn of `build_laplacian_matrix`
(lines 112–126) emits for vertex `i`: with a nonempty neighbor set, one
diagonal entry holding the neighbor count and one `-1` entry per
neighbor; nothing otherwise. -/
def laplacian_row (faces : List Face) (i : ℕ) : List (ℕ × ℕ × ℚ) :=
  if 0 < (adjacency_neighbors faces i).length then
    (i, i, ((adjacency_neighbors faces i).length : ℚ)) ::
      (adjacency_neighbors faces i).map (fun j => (i, j, (-1 : ℚ)))
  else []

/-- The COO triplets passed to `scipy.sparse.csr_matrix` by
`build_laplacian_matrix` (lines 110–127): the per-vertex triplets for
every `i < n` in order. -/
def laplacian_entries (n : ℕ) (faces : List Face) : List (ℕ × ℕ × ℚ) :=
  (List.range n).flatMap (laplacian_row faces)

/-- `scipy.sparse.csr_matrix((data, (rows, cols)))` semantics: entries at
the same coordinate are summed. -/
def csr_sum (entries : List (ℕ × ℕ × ℚ)) (i j : ℕ) : ℚ :=
  ((entries.filter (fun t => t.1 == i && t.2.1 == j)).map (fun t => t.2.2)).sum

/-- `build_laplacian_matrix` from `src/backend/nonrigid_icp.py` lines
76–129, as an entry function.  The source takes the vertex array only
for its length `n`, and ignores its `num_neighbors` argument. -/
def build_laplacian_matrix (n : ℕ) (faces : List Face) : ℕ → ℕ → ℚ :=
  csr_sum (laplacian_entries n faces)

/-- Specification-side notion: `i` and `j` are joined by a directed edge
insertion of some face. -/
def shares_edge (faces : List Face) (i j : ℕ) : Bool :=
  faces.any (fun f => (facePairs f).any (fun e => e.1 == i && e.2 == j))

/-- Specification-side notion: `j` is an edge-neighbor of `i` — a vertex
distinct from `i` sharing a face edge with it. -/
def is_edge_neighbor (faces : List Face) (i j : ℕ) : Bool :=
  (!(j == i)) && shares_edge faces i j

/-! ## `src/backend/nonrigid_icp.py` — non-rigid deformation -/

/-- `NonRigidICPConfig` dataclass (lines 26–49) with its field defaults.
`convergence_threshold` and `max_correspondence_distance` keep the
source values; comparisons against them are embedded squared. -/
structure NonRigidICPConfig where
  max_iterations : ℕ := 50
  stiffness : ℚ := 10
  landmark_weight : ℚ := 100
  convergence_threshold : ℚ := 1/100000
  max_correspondence_distance : ℚ := 1/50
  use_point_to_plane : Bool := true
  laplacian_neighbors : ℕ := 8
  deriving Repr, DecidableEq

/-- Dense matrices over `ℚ` (the sparse scipy matrices of the source are
a storage optimization; all claims concern values). -/
abbrev Mat := List (List ℚ)

/-- Entry of a dense matrix, 0 outside the stored extent. -/
def entryM (A : Mat) (i j : ℕ) : ℚ := (A.getD i []).getD j 0

/-- Build an `n × n` matrix from an entry function. -/
def matOfFun (n : ℕ) (f : ℕ → ℕ → ℚ) : Mat :=
  (List.range n).map (fun i => (List.range n).map (f i))

/-- `n × n` matrix sum. -/
def matAddQ (n : ℕ) (A B : Mat) : Mat :=
  matOfFun n (fun i j => entryM A i j + entryM B i j)

/-- Scalar multiple of an `n × n` matrix. -/
def smulM (n : ℕ) (c : ℚ) (A : Mat) : Mat :=
  matOfFun n (fun i j => c * entryM A i j)

/-- Transpose of an `n × n` matrix. -/
def transposeM (n : ℕ) (A : Mat) : Mat := matOfFun n (fun i j => entryM A j i)

/-- Product of `n × n` matrices. -/
def matMulQ (n : ℕ) (A B : Mat) : Mat :=
  matOfFun n (fun i j =>
    ((List.range n).map (fun k => entryM A i k * entryM B k j)).sum)

/-- `scipy.sparse.diags`: diagonal matrix from a weight vector. -/
def diagM (n : ℕ) (d : List ℚ) : Mat :=
  matOfFun n (fun i j => if i = j then d.getD i 0 else 0)

/-- Matrix–vector product (rows dotted with the vector). -/
def matVecQ (A : Mat) (x : List ℚ) : List ℚ :=
  A.map (fun r => (List.zipWith (· * ·) r x).sum)

/-- First row with a nonzero leading coefficient, and the remaining rows
in order. -/
def pivotSplit : List (List ℚ) → Option (List ℚ × List (List ℚ))
  | [] => none
  | r :: rs =>
    if r.headD 0 ≠ 0 then some (r, rs)
    else match pivotSplit rs with
      | some (p, rest) => some (p, r :: rest)
      | none => none

/-- Exact Gaussian elimination on augmented rows (`n` coefficient
columns plus the right-hand side).  This is the exact-arithmetic
equivalent of `scipy.sparse.linalg.spsolve`: on a nonsingular system it
returns the unique solution.  A column with no pivot assigns 0 to that
unknown (the float source would emit NaNs there; no claim depends on
singular systems). -/
def gaussAux : ℕ → List (List ℚ) → List ℚ
  | 0, _ => []
  | Nat.succ m, rows =>
    match pivotSplit rows with
    | none => 0 :: gaussAux m (rows.map List.tail)
    | some (p, rest) =>
      let ph := p.headD 1
      let pt := p.tail
      let rest' := rest.map (fun r =>
        List.zipWith (fun a b => a - r.headD 0 / ph * b) r.tail pt)
      let xs := gaussAux m rest'
      ((pt.getLastD 0 - (List.zipWith (· * ·) (pt.take m) xs).sum) / ph) :: xs

/-- Solve `A · x = b` for an `n × n` system. -/
def gaussSolve (A : Mat) (b : List ℚ) : List ℚ :=
  gaussAux A.length (List.zipWith (fun row bi => row ++ [bi]) A b)

/-- Nearest point of `target` to `v` with its squared distance (the
KD-tree `search_knn_vector_3d(v, 1)` of the source, made exact; ties go
to the earliest point). -/
def nearestPoint (target : List Vec3) (v : Vec3) : Option (Vec3 × ℚ) :=
  target.foldl (fun acc p =>
    match acc with
    | none => some (p, distSq3 v p)
    | some (q, d) => if distSq3 v p < d then some (p, distSq3 v p) else some (q, d))
    none

/-- `find_correspondences` (lines 132–178): per source vertex the closest
target point, its squared distance, and the validity flag
`dist ≤ max_distance` (embedded as `dist² ≤ max_distance²`).  An empty
target gives `(vertex, 0, invalid)` where the source stores `inf`. -/
def find_correspondences (src target : List Vec3) (maxDist : ℚ) :
    List (Vec3 × ℚ × Bool) :=
  src.map (fun v =>
    match nearestPoint target v with
    | none => (v, 0, false)
    | some (p, dsq) =>
      if dsq ≤ maxDist ^ 2 then (p, dsq, true) else (v, dsq, false))

/-- Landmark diagonal matrix (lines 311–327): `landmark_weight` summed per
occurrence of each in-range pinned vertex index (csr duplicate
summation). -/
def landmark_diag (n : ℕ) (pairs : List (ℕ × Vec3)) (w : ℚ) : Mat :=
  matOfFun n (fun i j =>
    if i = j then w * ((pairs.filter (fun p => p.1 == i)).length : ℚ) else 0)

/-- Landmark right-hand side (lines 312–321): zeros, overwritten in pair
order with `target_pos * landmark_weight` at each in-range index. -/
def landmark_rhs (n : ℕ) (pairs : List (ℕ × Vec3)) (w : ℚ) : List Vec3 :=
  pairs.foldl (fun acc p => if p.1 < n then acc.set p.1 (vsmul3 w p.2) else acc)
    (List.replicate n ((0 : ℚ), (0 : ℚ), (0 : ℚ)))

/-- One iteration of the non-rigid loop (lines 287–336): find
correspondences, assemble `A = W + stiffness·LᵀL + landmark_diag` and the
per-coordinate right-hand sides
`W·target + stiffness·(LᵀL·current) + landmark_rhs`, and solve the three
systems. -/
def nricp_iteration (cfg : NonRigidICPConfig) (target : List Vec3)
    (pairs : List (ℕ × Vec3)) (L : Mat) (vertices : List Vec3) : List Vec3 :=
  let n := vertices.length
  let corrs := find_correspondences vertices target cfg.max_correspondence_distance
  let weights := corrs.map (fun c => if c.2.2 then (1 : ℚ) else 0)
  let W := diagM n weights
  let LtL := matMulQ n (transposeM n L) L
  let A := matAddQ n (matAddQ n W (smulM n cfg.stiffness LtL))
    (landmark_diag n pairs cfg.landmark_weight)
  let rhs := landmark_rhs n pairs cfg.landmark_weight
  let targetD := corrs.map (fun c => c.1)
  let solveDim (coord : Vec3 → ℚ) : List ℚ :=
    gaussSolve A
      (List.zipWith (fun a b => a + b)
        (List.zipWith (fun a b => a + b)
          (matVecQ W (targetD.map coord))
          ((matVecQ LtL (vertices.map coord)).map (fun x => cfg.stiffness * x)))
        (rhs.map coord))
  let xs := solveDim (fun p => p.1)
  let ys := solveDim (fun p => p.2.1)
  let zs := solveDim (fun p => p.2.2)
  List.zipWith (fun x yz => (x, yz)) xs (List.zipWith (fun y z => (y, z)) ys zs)

/-- The iteration loop of `deform_template_to_scan` (lines 286–348),
fuelled by `max_iterations`.  The convergence test
`sqrt(mean ‖ΔV‖²) < convergence_threshold` is embedded squared as
`Σ‖ΔV‖² < threshold² · n` (with the empty-mesh comparison false, as a
NaN comparison is in the source). -/
def nricp_loop (cfg : NonRigidICPConfig) (target : List Vec3)
    (pairs : List (ℕ × Vec3)) (L : Mat) :
    ℕ → ℕ → List Vec3 → List Vec3 × ℕ × Bool
  | 0, used, verts => (verts, used, false)
  | Nat.succ m, used, verts =>
    let newVerts := nricp_iteration cfg target pairs L verts
    let sumSq := (List.zipWith distSq3 newVerts verts).sum
    if 0 < verts.length ∧
        sumSq < cfg.convergence_threshold ^ 2 * (verts.length : ℚ) then
      (newVerts, used + 1, true)
    else
      nricp_loop cfg target pairs L m (used + 1) newVerts

/-- Result of `deform_template_to_scan` (`NonRigidICPResult`).  The
derived float statistics `mean_error`, `max_error`, `p95_error` of the
source are summaries of `vertex_errors` (which the source stores as
Euclidean distances, carried squared here) and are not modelled. -/
structure NonRigidICPResult where
  deformed_vertices : List Vec3
  displacements : List Vec3
  vertex_errors_sq : List ℚ
  iterations_used : ℕ
  converged : Bool
  deriving Repr, DecidableEq

/-- Apply a homogeneous `4 × 4` transform to a point
(lines 273–274: `(transform @ [x, y, z, 1]ᵀ)[:3]`). -/
def applyTransform4 (M : Mat) (v : Vec3) : Vec3 :=
  (entryM M 0 0 * v.1 + entryM M 0 1 * v.2.1 + entryM M 0 2 * v.2.2 + entryM M 0 3,
   entryM M 1 0 * v.1 + entryM M 1 1 * v.2.1 + entryM M 1 2 * v.2.2 + entryM M 1 3,
   entryM M 2 0 * v.1 + entryM M 2 1 * v.2.1 + entryM M 2 2 * v.2.2 + entryM M 2 3)

/-- `deform_template_to_scan` (lines 231–378).  `rigid_align` (line 270)
wraps open3d's `registration_icp`, an external library call; its output
`4 × 4` transform is taken as the explicit parameter `rigid_transform`.
`original_vertices` is copied from the input template *before* that
transform is applied (lines 258–266), and the displacements are computed
against it (line 356). -/
def deform_template_to_scan (template_vertices : List Vec3) (faces : List Face)
    (target : List Vec3) (landmark_pairs : List (ℕ × Vec3))
    (cfg : NonRigidICPConfig) (rigid_transform : Mat) : NonRigidICPResult :=
  let original_vertices := template_vertices
  let vertices := template_vertices.map (applyTransform4 rigid_transform)
  let n := vertices.length
  let L := matOfFun n (build_laplacian_matrix n faces)
  let res := nricp_loop cfg target landmark_pairs L cfg.max_iterations 0 vertices
  let finalCorrs := find_correspondences res.1 target
    (cfg.max_correspondence_distance * 2)
  { deformed_vertices := res.1
    displacements := List.zipWith vsub3 res.1 original_vertices
    vertex_errors_sq := finalCorrs.map (fun c => c.2.1)
    iterations_used := res.2.1
    converged := res.2.2 }

/-! ## `src/backend/main.py` — face-region crop -/

/-- Insert into a sorted list. -/
def insertSorted (x : ℚ) : List ℚ → List ℚ
  | [] => [x]
  | y :: ys => if x ≤ y then x :: y :: ys else y :: insertSorted x ys

/-- Sort ascending (insertion sort). -/
def sortQ (xs : List ℚ) : List ℚ := xs.foldr insertSorted []

/-- `np.percentile(xs, q)` with the default linear interpolation:
index `h = q·(n−1)/100` into the sorted data, interpolating between the
two bracketing order statistics. -/
def percentileQ (xs : List ℚ) (q : ℚ) : ℚ :=
  let a := sortQ xs
  let n := a.length
  if n = 0 then 0
  else
    let h : ℚ := q * ((n : ℚ) - 1) / 100
    let lo : ℕ := h.floor.toNat
    let frac : ℚ := h - (lo : ℚ)
    if lo + 1 < n then a.getD lo 0 + frac * (a.getD (lo + 1) 0 - a.getD lo 0)
    else a.getD (n - 1) 0

/-- `crop_face_region` from `src/backend/main.py` lines 135–170.  Clouds
with fewer than 100 points are returned untouched; otherwise the mask
keeps points inside the 10th–90th x/y percentiles, the near 60% of
depth, and a radial disc (`sqrt(dx²+dy²) ≤ radius` embedded squared —
`radius ≥ 0.6·10⁻⁶ > 0`), and is skipped when it would keep fewer than
20% of the points (`mask.mean() < 0.2` ⟺ `5·kept < n`).  Colors are
carried through the mask only when their count matches the points. -/
def crop_face_region (pts : List Vec3) (colors : Option (List Vec3)) :
    List Vec3 × Option (List Vec3) :=
  if pts.length < 100 then (pts, colors)
  else
    let xs := pts.map (fun p => p.1)
    let ys := pts.map (fun p => p.2.1)
    let zs := pts.map (fun p => p.2.2)
    let x_min := percentileQ xs 10
    let x_max := percentileQ xs 90
    let y_min := percentileQ ys 10
    let y_max := percentileQ ys 90
    let z_min := listMin zs
    let z_max := listMax zs
    let z_range := max (z_max - z_min) (1/1000000)
    let z_cut := z_min + (3/5) * z_range
    let x_mid := percentileQ xs 50
    let y_mid := percentileQ ys 50
    let x_range := max (x_max - x_min) (1/1000000)
    let y_range := max (y_max - y_min) (1/1000000)
    let radius := (3/5) * max x_range y_range
    let maskP : Vec3 → Bool := fun p =>
      decide (x_min ≤ p.1) && decide (p.1 ≤ x_max) &&
      decide (y_min ≤ p.2.1) && decide (p.2.1 ≤ y_max) &&
      decide (p.2.2 ≤ z_cut) &&
      decide ((p.1 - x_mid) ^ 2 + (p.2.1 - y_mid) ^ 2 ≤ radius ^ 2)
    let kept := pts.filter maskP
    if kept.length * 5 < pts.length then (pts, colors)
    else
      let colorsOut : Option (List Vec3) :=
        match colors with
        | some cs =>
          if cs.length = pts.length then
            some (((pts.zip cs).filter (fun pc => maskP pc.1)).map (fun pc => pc.2))
          else none
        | none => none
      (kept, colorsOut)

/-! ## Specification-side formulas -/

/-- The confidence formula as the specification writes it:
`1 − clip(p95/(2·p95_max), 0, 0.5) − clip(nose_p95/(2·nose_max), 0, 0.3)
− clip(landmark_rms/(2·lmk_max), 0, 0.2)`, clipped to `[0, 1]`. -/
def spec_confidence (m : SurfaceMetrics) (c : FitConfig) : ℚ :=
  clipQ (1 - clipQ (m.p95_mm / (2 * c.max_surface_mm_p95)) 0 (1/2)
    - clipQ (m.nose_p95_mm / (2 * c.max_nose_mm_p95)) 0 (3/10)
    - clipQ (m.landmark_rms_mm / (2 * c.max_landmark_mm)) 0 (1/5)) 0 1

/-- A concrete non-identity rigid transform (translation by 1 along x),
standing in for a non-trivial `rigid_align` result. -/
def rigidShiftX : Mat := [[1, 0, 0, 1], [0, 1, 0, 0], [0, 0, 1, 0], [0, 0, 0, 1]]

/-! ## Theorems -/

/-- C8 (counterexample): a `NonRigidICPConfig` built with no arguments
does not have the defaults the claim states — already `max_iterations`
is 50, not 80. -/
theorem C8_counterexample :
    ¬ (({} : NonRigidICPConfig).max_iterations = 80 ∧
       ({} : NonRigidICPConfig).stiffness = 5 ∧
       ({} : NonRigidICPConfig).landmark_weight = 50 ∧
       ({} : NonRigidICPConfig).convergence_threshold = 1/100000 ∧
       ({} : NonRigidICPConfig).max_correspondence_distance = 3/100) := by
  intro h
  exact absurd h.1 (by decide)

/-- C8 (amended): constructing a `NonRigidICPConfig` with no arguments
yields the dataclass defaults `max_iterations = 50`, `stiffness = 10`,
`landmark_weight = 100`, `convergence_threshold = 1e-5` and
`max_correspondence_distance = 0.02`. -/
theorem C8_default_config :
    ({} : NonRigidICPConfig).max_iterations = 50 ∧
    ({} : NonRigidICPConfig).stiffness = 10 ∧
    ({} : NonRigidICPConfig).landmark_weight = 100 ∧
    ({} : NonRigidICPConfig).convergence_threshold = 1/100000 ∧
    ({} : NonRigidICPConfig).max_correspondence_distance = 1/50 :=
  ⟨rfl, rfl, rfl, rfl, rfl⟩

/-- C3 (counterexample): a downsampled cloud of exactly 200 points does
not fail — the sparse guard is strict (`count < 200`), so 200 points
pass it and only set `sparse_mode`. -/
theorem C3_counterexample :
    ¬ ∃ msg, fitSparseGate 200 false = Except.error msg := by
  rintro ⟨msg, h⟩
  rw [show fitSparseGate 200 false = Except.ok (true, ["rigid"]) from rfl] at h
  exact Except.noConfusion h

/-- C3 (amended): `fit_flame_mesh` fails with the too-sparse error
exactly when the downsampled target has fewer than 200 points (200
itself does not fail), and with at least 200 but fewer than 500 points
it sets `sparse_mode` and runs only the rigid stage. -/
theorem C3_sparse_gate (n : ℕ) (freeze_expression : Bool) :
    ((∃ msg, fitSparseGate n freeze_expression = Except.error msg) ↔ n < 200) ∧
    (200 ≤ n → n < 500 →
      fitSparseGate n freeze_expression = Except.ok (true, ["rigid"])) := by
  constructor
  · constructor
    · rintro ⟨msg, h⟩
      by_contra hn
      simp [fitSparseGate, hn] at h
    · intro h
      exact ⟨"Point cloud too sparse for FLAME fitting", by simp [fitSparseGate, h]⟩
  · intro h1 h2
    have hn : ¬ n < 200 := by omega
    simp [fitSparseGate, hn, h2]

/-- C3 (witness): a 300-point downsampled cloud runs in sparse mode with
only the rigid stage. -/
theorem C3_sparse_gate_witness :
    fitSparseGate 300 false = Except.ok (true, ["rigid"]) :=
  (C3_sparse_gate 300 false).2 (by decide) (by decide)

/-- C10: `crop_face_region` returns its input unchanged whenever the
cloud has fewer than 100 points. -/
theorem C10_small_cloud (pts : List Vec3) (colors : Option (List Vec3))
    (h : pts.length < 100) : crop_face_region pts colors = (pts, colors) := by
  simp [crop_face_region, h]

/-- C10 (witness): a one-point cloud is returned untouched. -/
theorem C10_small_cloud_witness :
    crop_face_region [((0 : ℚ), 0, 0)] none = ([((0 : ℚ), 0, 0)], none) :=
  C10_small_cloud _ _ (by decide)

/-- C9: `build_qc` emits `HIGH_OUTLIER_RATIO` exactly when
`outlier_ratio > 0.1`, and the decision is the same for every
`FitConfig` — the threshold is a fixed literal, not a config field. -/
theorem C9_outlier_warning (m : SurfaceMetrics) (c c' : FitConfig) :
    ("HIGH_OUTLIER_RATIO" ∈ (build_qc m c).warnings ↔ m.outlier_ratio > 1/10) ∧
    ("HIGH_OUTLIER_RATIO" ∈ (build_qc m c).warnings ↔
      "HIGH_OUTLIER_RATIO" ∈ (build_qc m c').warnings) := by
  have key : ∀ c0 : FitConfig,
      ("HIGH_OUTLIER_RATIO" ∈ (build_qc m c0).warnings ↔ m.outlier_ratio > 1/10) := by
    intro c0
    simp only [build_qc]
    split_ifs <;> simp_all
  exact ⟨key c, (key c).trans (key c').symm⟩

/-- Clipping to `[0,1]` written as `max 0 (min 1 ·)` (the source) agrees
with `min (max · 0) 1` (`np.clip`). -/
lemma max0min1 (v : ℚ) : max 0 (min 1 v) = min (max v 0) 1 := by
  rcases le_total v 0 with h | h
  · rw [min_eq_right (h.trans zero_le_one), max_eq_left h, max_eq_right h,
      min_eq_left zero_le_one]
  · rcases le_total v 1 with h2 | h2
    · rw [min_eq_right h2, max_eq_right h, max_eq_left h, min_eq_left h2]
    · rw [min_eq_left h2, max_eq_right zero_le_one,
        max_eq_left (zero_le_one.trans h2), min_eq_right h2]

/-- C5: for non-negative metrics (and positive QC thresholds, without
which the ratios are not the non-negative quantities the formula clips),
`build_qc`'s confidence equals the specification's clipped formula. -/
theorem C5_confidence (m : SurfaceMetrics) (c : FitConfig)
    (h1 : 0 ≤ m.p95_mm) (h2 : 0 ≤ m.nose_p95_mm) (h3 : 0 ≤ m.landmark_rms_mm)
    (h4 : 0 < c.max_surface_mm_p95) (h5 : 0 < c.max_nose_mm_p95)
    (h6 : 0 < c.max_landmark_mm) :
    (build_qc m c).confidence = spec_confidence m c := by
  have e1 : clipQ (m.p95_mm / (2 * c.max_surface_mm_p95)) 0 (1/2)
      = min (m.p95_mm / (c.max_surface_mm_p95 * 2)) (1/2) := by
    rw [mul_comm 2 c.max_surface_mm_p95]
    unfold clipQ
    rw [max_eq_left (div_nonneg h1 (by positivity))]
  have e2 : clipQ (m.nose_p95_mm / (2 * c.max_nose_mm_p95)) 0 (3/10)
      = min (m.nose_p95_mm / (c.max_nose_mm_p95 * 2)) (3/10) := by
    rw [mul_comm 2 c.max_nose_mm_p95]
    unfold clipQ
    rw [max_eq_left (div_nonneg h2 (by positivity))]
  have e3 : clipQ (m.landmark_rms_mm / (2 * c.max_landmark_mm)) 0 (1/5)
      = min (m.landmark_rms_mm / (c.max_landmark_mm * 2)) (1/5) := by
    rw [mul_comm 2 c.max_landmark_mm]
    unfold clipQ
    rw [max_eq_left (div_nonneg h3 (by positivity))]
  have hb : (build_qc m c).confidence = max 0 (min 1
      (1 - min (m.p95_mm / (c.max_surface_mm_p95 * 2)) (1/2)
        - min (m.nose_p95_mm / (c.max_nose_mm_p95 * 2)) (3/10)
        - min (m.landmark_rms_mm / (c.max_landmark_mm * 2)) (1/5))) := rfl
  rw [hb]
  unfold spec_confidence
  rw [e1, e2, e3]
  unfold clipQ
  exact max0min1 _

/-- C5 (witness): at `p95 = 3 mm`, `nose = 1 mm`, `rms = 1 mm` under the
default thresholds, both formulas give the same confidence. -/
theorem C5_confidence_witness :
    (build_qc ⟨3, 1, 1, 0⟩ {}).confidence = spec_confidence ⟨3, 1, 1, 0⟩ {} :=
  C5_confidence ⟨3, 1, 1, 0⟩ {} (by decide) (by decide) (by decide) (by decide)
    (by decide) (by decide)

/-- C6: after the orchestrator update, `pass_fit` is false exactly when
one of the three threshold warnings triggered or a sparse/timeout flag
was set; the QC warnings are preserved (only appended to); and a high
outlier ratio alone leaves `pass_fit` true while still emitting its
warning. -/
theorem C6_pass_fit (m : SurfaceMetrics) (c : FitConfig) (sparse timed : Bool) :
    ((process_scan_qc_update (build_qc m c) sparse timed).pass_fit = false ↔
      (m.p95_mm > c.max_surface_mm_p95 ∨ m.nose_p95_mm > c.max_nose_mm_p95 ∨
        m.landmark_rms_mm > c.max_landmark_mm ∨ sparse = true ∨ timed = true)) ∧
    (List.Sublist (build_qc m c).warnings
      (process_scan_qc_update (build_qc m c) sparse timed).warnings) ∧
    (¬ m.p95_mm > c.max_surface_mm_p95 → ¬ m.nose_p95_mm > c.max_nose_mm_p95 →
      ¬ m.landmark_rms_mm > c.max_landmark_mm → sparse = false → timed = false →
      m.outlier_ratio > 1/10 →
      (process_scan_qc_update (build_qc m c) sparse timed).pass_fit = true ∧
      "HIGH_OUTLIER_RATIO" ∈
        (process_scan_qc_update (build_qc m c) sparse timed).warnings) := by
  have hq : ((build_qc m c).pass_fit = false) ↔
      (m.p95_mm > c.max_surface_mm_p95 ∨ m.nose_p95_mm > c.max_nose_mm_p95 ∨
        m.landmark_rms_mm > c.max_landmark_mm) := by
    simp only [build_qc]
    split_ifs with h <;> simp [h]
  refine ⟨?_, ?_, ?_⟩
  · cases sparse <;> cases timed <;> simp [process_scan_qc_update, hq]
  · cases sparse <;> cases timed <;> simp only [process_scan_qc_update] <;> simp
  · intro hp hn hl hs ht ho
    subst hs; subst ht
    constructor
    · simp [process_scan_qc_update, build_qc, hp, hn, hl]
    · simpa [process_scan_qc_update, build_qc, hp, hn, hl] using ho

/-- C6 (witness): outlier ratio 0.2 with all three error metrics under
threshold and no flags — the fit passes and the outlier warning is
present. -/
theorem C6_pass_fit_witness :
    (process_scan_qc_update (build_qc ⟨3, 1, 1, 1/5⟩ {}) false false).pass_fit = true ∧
    "HIGH_OUTLIER_RATIO" ∈
      (process_scan_qc_update (build_qc ⟨3, 1, 1, 1/5⟩ {}) false false).warnings :=
  (C6_pass_fit ⟨3, 1, 1, 1/5⟩ {} false false).2.2 (by norm_num) (by norm_num)
    (by norm_num) rfl rfl (by norm_num)

/-- C2: on a non-empty cloud with no overrides, the unit heuristic is
driven by the bounding-box diagonal (squared here): `diag > 1` gives
"millimeters" with factor `0.001` applied to every point; `diag < 0.02`
gives "unknown", factor 1 and a `UNIT_SUSPECT` warning; otherwise
"meters" with factor 1.  A positive override scale, or an override label
in {"meters", "millimeters"}, takes precedence over the heuristic. -/
theorem C2_normalize_units (pts : List Vec3) (ou : Option String)
    (h : pts ≠ []) :
    ((1 < bboxDiagSq pts →
        normalize_units pts none none =
          ⟨pts.map (vsmul3 (1/1000)), "millimeters", 1/1000, []⟩) ∧
      (bboxDiagSq pts < 1/2500 →
        normalize_units pts none none = ⟨pts, "unknown", 1, ["UNIT_SUSPECT"]⟩) ∧
      (¬ 1 < bboxDiagSq pts → ¬ bboxDiagSq pts < 1/2500 →
        normalize_units pts none none = ⟨pts, "meters", 1, []⟩)) ∧
    (∀ s : ℚ, 0 < s →
      (normalize_units pts (some s) ou).units_inferred = "override" ∧
      (normalize_units pts (some s) ou).unit_scale_applied = s) ∧
    (normalize_units pts none (some "meters") = ⟨pts, "meters", 1, []⟩) ∧
    (normalize_units pts none (some "millimeters") =
      ⟨pts.map (vsmul3 (1/1000)), "millimeters", 1/1000, []⟩) := by
  refine ⟨⟨?_, ?_, ?_⟩, ?_, ?_, ?_⟩
  · intro hd
    simp [normalize_units, h, hd]
  · intro hd
    have hd' : ¬ 1 < bboxDiagSq pts := by
      intro hgt
      have : (1 : ℚ) < 1/2500 := hgt.trans hd
      norm_num at this
    have hdn : bboxDiagSq pts < 2500⁻¹ := by rwa [one_div] at hd
    simp [normalize_units, h, hdn, hd']
  · intro hd1 hd2
    have hdn : ¬ bboxDiagSq pts < 2500⁻¹ := by rwa [one_div] at hd2
    simp [normalize_units, h, hd1, hdn]
  · intro s hs
    simp [normalize_units, h, hs]
  · simp [normalize_units, h]
  · simp [normalize_units, h]

/-- C2 (witness): a cloud of diagonal 2 (squared 4) is inferred as
millimeters and scaled by `0.001`. -/
theorem C2_normalize_units_witness :
    normalize_units [((0 : ℚ), 0, 0), ((2 : ℚ), 0, 0)] none none =
      ⟨[((0 : ℚ), 0, 0), ((1/500 : ℚ), 0, 0)], "millimeters", 1/1000, []⟩ := by
  rw [(C2_normalize_units [((0 : ℚ), 0, 0), ((2 : ℚ), 0, 0)] none
    (by decide)).1.1 (by norm_num [bboxDiagSq, listMax, listMin])]
  norm_num [vsmul3]

/-- `clipQ` lands in `[lo, hi]` whenever the interval is nonempty. -/
lemma clipQ_mem (x lo hi : ℚ) (h : lo ≤ hi) :
    lo ≤ clipQ x lo hi ∧ clipQ x lo hi ≤ hi := by
  unfold clipQ
  exact ⟨le_min (le_max_right x lo) h, min_le_right _ _⟩

/-- Clamping a value of `[-1, 1]` to `[-jaw, jaw]` (`jaw ≥ 0`) stays in
`[-1, 1]`. -/
lemma clipQ_jaw_in_unit (y jaw : ℚ) (hy1 : -1 ≤ y) (hy2 : y ≤ 1)
    (hj : 0 ≤ jaw) : -1 ≤ clipQ y (-jaw) jaw ∧ clipQ y (-jaw) jaw ≤ 1 := by
  unfold clipQ
  constructor
  · exact le_min (hy1.trans (le_max_left _ _)) (by linarith)
  · exact (min_le_left _ _).trans (max_le hy2 (by linarith))

/-- The post-step projection always lands inside the box constraints,
whatever state the optimizer step produced. -/
lemma clamp_after_step_in_bounds (jaw : ℚ) (hj : 0 ≤ jaw) (freeze : Bool)
    (s : FlameState) :
    state_in_bounds jaw freeze (clamp_after_step jaw freeze s) := by
  have hshape : ∀ x ∈ (clamp_after_step jaw freeze s).shape_params,
      -4 ≤ x ∧ x ≤ 4 := by
    intro x hx
    simp only [clamp_after_step, List.mem_map] at hx
    obtain ⟨y, _, rfl⟩ := hx
    exact clipQ_mem y (-4) 4 (by norm_num)
  have hexpr : ∀ x ∈ (clamp_after_step jaw freeze s).expression_params,
      -4 ≤ x ∧ x ≤ 4 := by
    intro x hx
    simp only [clamp_after_step, List.mem_map] at hx
    obtain ⟨y, _, rfl⟩ := hx
    exact clipQ_mem y (-4) 4 (by norm_num)
  set pose1 := s.pose_params.map (fun x => clipQ x (-1) 1) with hpose1
  have hp1 : ∀ y ∈ pose1, -1 ≤ y ∧ y ≤ 1 := by
    intro y hy
    rw [hpose1] at hy
    simp only [List.mem_map] at hy
    obtain ⟨z, _, rfl⟩ := hy
    exact clipQ_mem z (-1) 1 (by norm_num)
  set jawL := (pose1.drop 3).map (fun x => clipQ x (-jaw) jaw) with hjawL
  set jaw2 := if freeze then jawL.map (fun _ => (0 : ℚ)) else jawL with hjaw2
  have hpose_eq : (clamp_after_step jaw freeze s).pose_params =
      pose1.take 3 ++ jaw2 := rfl
  have hjaw2_unit : ∀ x ∈ jaw2, -1 ≤ x ∧ x ≤ 1 := by
    intro x hx
    rw [hjaw2] at hx
    rcases freeze with _ | _
    · simp only [Bool.false_eq_true, if_neg, ite_false] at hx
      rw [hjawL] at hx
      simp only [List.mem_map] at hx
      obtain ⟨y, hy, rfl⟩ := hx
      have := hp1 y (List.drop_subset 3 pose1 hy)
      exact clipQ_jaw_in_unit y jaw this.1 this.2 hj
    · simp only [ite_true] at hx
      simp only [List.mem_map] at hx
      obtain ⟨y, _, rfl⟩ := hx
      constructor <;> norm_num
  have hjaw2_jaw : ∀ x ∈ jaw2, -jaw ≤ x ∧ x ≤ jaw := by
    intro x hx
    rw [hjaw2] at hx
    rcases freeze with _ | _
    · simp only [Bool.false_eq_true, if_neg, ite_false] at hx
      rw [hjawL] at hx
      simp only [List.mem_map] at hx
      obtain ⟨y, _, rfl⟩ := hx
      exact clipQ_mem y (-jaw) jaw (by linarith)
    · simp only [ite_true] at hx
      simp only [List.mem_map] at hx
      obtain ⟨y, _, rfl⟩ := hx
      constructor <;> linarith
  have hjaw2_zero : freeze = true → ∀ x ∈ jaw2, x = 0 := by
    intro hf x hx
    rw [hjaw2, hf] at hx
    simp only [ite_true] at hx
    simp only [List.mem_map] at hx
    obtain ⟨y, _, rfl⟩ := hx
    rfl
  have hhead : ∀ x ∈ (clamp_after_step jaw freeze s).pose_params.take 3,
      -1 ≤ x ∧ x ≤ 1 := by
    intro x hx
    have hx' : x ∈ pose1.take 3 ++ jaw2 := by
      rw [← hpose_eq]
      exact List.take_subset 3 _ hx
    rcases List.mem_append.mp hx' with hx1 | hx2
    · exact hp1 x (List.take_subset 3 pose1 hx1)
    · exact hjaw2_unit x hx2
  have hdrop_sub : ∀ x ∈ (clamp_after_step jaw freeze s).pose_params.drop 3,
      x ∈ jaw2 := by
    intro x hx
    rw [hpose_eq] at hx
    rw [List.drop_append_eq_append_drop] at hx
    rw [List.drop_eq_nil_of_le (by
      simp [Nat.min_le_left 3 pose1.length])] at hx
    rw [List.nil_append] at hx
    exact List.drop_subset _ _ hx
  refine ⟨hshape, hexpr, hhead, ?_, ?_, ?_⟩
  · intro x hx
    exact hjaw2_jaw x (hdrop_sub x hx)
  · exact clipQ_mem s.scale (1/2) 2 (by norm_num)
  · intro hf x hx
    exact hjaw2_zero hf x (hdrop_sub x hx)

/-- Unfolding one step of a stage run. -/
lemma run_stage_steps_cons (jaw : ℚ) (freeze : Bool)
    (u : FlameState → FlameState) (us : List (FlameState → FlameState))
    (s : FlameState) :
    run_stage_steps jaw freeze (u :: us) s =
      run_stage_steps jaw freeze us (clamp_after_step jaw freeze (u s)) := rfl

/-- After a nonempty run of projected steps the state is in bounds. -/
lemma run_stage_steps_in_bounds (jaw : ℚ) (hj : 0 ≤ jaw) (freeze : Bool) :
    ∀ (us : List (FlameState → FlameState)) (s0 : FlameState), us ≠ [] →
      state_in_bounds jaw freeze (run_stage_steps jaw freeze us s0) := by
  intro us
  induction us with
  | nil => intro s0 hne; exact absurd rfl hne
  | cons u vs ih =>
    intro s0 _
    rw [run_stage_steps_cons]
    cases vs with
    | nil => exact clamp_after_step_in_bounds jaw hj freeze (u s0)
    | cons v ws => exact ih _ (by simp)

/-- Zero jaw entries are preserved by any projected run under
`freeze_jaw`. -/
lemma run_stage_steps_jaw_zero (jaw : ℚ) (hj : 0 ≤ jaw) :
    ∀ (us : List (FlameState → FlameState)) (s0 : FlameState),
      (∀ x ∈ s0.pose_params.drop 3, x = 0) →
      ∀ x ∈ (run_stage_steps jaw true us s0).pose_params.drop 3, x = 0 := by
  intro us
  induction us with
  | nil => intro s0 h0; exact h0
  | cons u vs ih =>
    intro s0 _
    rw [run_stage_steps_cons]
    exact ih _ ((clamp_after_step_in_bounds jaw hj true _).2.2.2.2.2 rfl)

/-- C4: after every optimizer step of every stage the projected state
obeys the box constraints (shape and expression in `[-4, 4]`, head pose
in `[-1, 1]`, jaw in `[-jaw_max_rad, jaw_max_rad]`, scale in
`[0.5, 2]`), with jaw entries exactly zero whenever `freeze_jaw` is set;
and under `freeze_jaw` the jaw entries are zero on exit even for a run
of no steps. -/
theorem C4_box_projection (jaw : ℚ) (hj : 0 ≤ jaw) (freeze : Bool)
    (updates : List (FlameState → FlameState)) (s0 : FlameState)
    (k : ℕ) (hk1 : 1 ≤ k) (hk2 : k ≤ updates.length)
    (tr : List ℚ) (sc : ℚ) :
    state_in_bounds jaw freeze
      (run_stage_steps jaw freeze (updates.take k) s0) ∧
    (freeze = true →
      ∀ x ∈ (run_stage_steps jaw freeze updates
        (init_flame_state tr sc)).pose_params.drop 3, x = 0) := by
  constructor
  · apply run_stage_steps_in_bounds jaw hj freeze
    apply List.ne_nil_of_length_pos
    rw [List.length_take]
    exact lt_min (by omega) (by omega)
  · intro hf
    subst hf
    apply run_stage_steps_jaw_zero jaw hj updates
    intro x hx
    have hx' : x ∈ List.replicate 3 (0 : ℚ) := by
      simpa [init_flame_state] using hx
    exact List.eq_of_mem_replicate hx'

/-- C4 (witness): one identity step from the initial state under
`freeze_jaw` with the default `jaw_max_rad = 0.35`. -/
theorem C4_box_projection_witness :
    state_in_bounds (7/20) true
      (run_stage_steps (7/20) true ([fun s => s].take 1) (init_flame_state [] 1)) ∧
    (true = true →
      ∀ x ∈ (run_stage_steps (7/20) true [fun s => s]
        (init_flame_state [] 1)).pose_params.drop 3, x = 0) :=
  C4_box_projection (7/20) (by norm_num) true [fun s => s] (init_flame_state [] 1)
    1 (by decide) (by decide) [] 1

/-- `gaussAux` always returns as many unknowns as requested. -/
lemma gaussAux_length (n : ℕ) : ∀ rows, (gaussAux n rows).length = n := by
  induction n with
  | zero => intro rows; rfl
  | succ m ih =>
    intro rows
    rw [gaussAux]
    cases hp : pivotSplit rows with
    | none => simp [ih]
    | some pr => simp [ih]

/-- `gaussSolve` returns one value per matrix row. -/
lemma gaussSolve_length (A : Mat) (b : List ℚ) :
    (gaussSolve A b).length = A.length := gaussAux_length _ _

/-- `matOfFun` builds `n` rows. -/
lemma matOfFun_length (n : ℕ) (f : ℕ → ℕ → ℚ) : (matOfFun n f).length = n := by
  simp [matOfFun]

/-- One non-rigid iteration preserves the vertex count. -/
lemma nricp_iteration_length (cfg : NonRigidICPConfig) (target : List Vec3)
    (pairs : List (ℕ × Vec3)) (L : Mat) (v : List Vec3) :
    (nricp_iteration cfg target pairs L v).length = v.length := by
  unfold nricp_iteration
  simp [List.length_zipWith, gaussSolve_length, matAddQ, matOfFun_length]

/-- The deformation loop preserves the vertex count. -/
lemma nricp_loop_fst_length (cfg : NonRigidICPConfig) (target : List Vec3)
    (pairs : List (ℕ × Vec3)) (L : Mat) :
    ∀ (fuel used : ℕ) (verts : List Vec3),
      (nricp_loop cfg target pairs L fuel used verts).1.length = verts.length := by
  intro fuel
  induction fuel with
  | zero => intro used verts; rfl
  | succ m ih =>
    intro used verts
    rw [nricp_loop]
    split
    · simp [nricp_iteration_length]
    · rw [ih]
      exact nricp_iteration_length cfg target pairs L verts

/-- Adding back a pointwise difference recovers the minuend. -/
lemma zipWith_vadd_vsub (a : List Vec3) :
    ∀ b : List Vec3, b.length = a.length →
      List.zipWith vadd3 a (List.zipWith vsub3 b a) = b := by
  induction a with
  | nil =>
    intro b hb
    rw [List.length_nil, List.length_eq_zero] at hb
    subst hb
    rfl
  | cons x xs ih =>
    intro b hb
    cases b with
    | nil => simp at hb
    | cons y ys =>
      simp only [List.zipWith_cons_cons, List.cons.injEq]
      refine ⟨?_, ih ys (by simpa using hb)⟩
      obtain ⟨x1, x2, x3⟩ := x
      obtain ⟨y1, y2, y3⟩ := y
      simp [vadd3, vsub3]

/-- C1 (amended): the displacement field returned by
`deform_template_to_scan` is the deformed vertices minus the template
vertices *as passed in* — i.e. before the internal rigid ICP alignment —
so adding `D` to the input template reproduces the deformed mesh
exactly. -/
theorem C1_displacement_field (tv : List Vec3) (faces : List Face)
    (target : List Vec3) (pairs : List (ℕ × Vec3)) (cfg : NonRigidICPConfig)
    (T : Mat) :
    (deform_template_to_scan tv faces target pairs cfg T).displacements =
      List.zipWith vsub3
        (deform_template_to_scan tv faces target pairs cfg T).deformed_vertices
        tv ∧
    List.zipWith vadd3 tv
        (deform_template_to_scan tv faces target pairs cfg T).displacements =
      (deform_template_to_scan tv faces target pairs cfg T).deformed_vertices := by
  constructor
  · rfl
  · have hlen :
        ((deform_template_to_scan tv faces target pairs cfg T).deformed_vertices).length
          = tv.length := by
      have h1 :
          ((deform_template_to_scan tv faces target pairs cfg T).deformed_vertices).length
            = (tv.map (applyTransform4 T)).length :=
        nricp_loop_fst_length cfg target pairs _ cfg.max_iterations 0 _
      rw [h1, List.length_map]
    have hd : (deform_template_to_scan tv faces target pairs cfg T).displacements
        = List.zipWith vsub3
          (deform_template_to_scan tv faces target pairs cfg T).deformed_vertices
          tv := rfl
    rw [hd]
    exact zipWith_vadd_vsub tv _ hlen

unseal Rat.mul Rat.inv Rat.add Rat.sub in
/-- C1 (counterexample): with a non-identity rigid alignment (translation
by 1 in x), the returned displacement of a one-vertex template is *not*
the deformed position minus the rigidly transformed template vertex: the
deformation moves the vertex onto the target `(1,0,0)`, the displacement
stored is `(1,0,0) − (0,0,0) = (1,0,0)`, while deformed minus transformed
is `(0,0,0)`. -/
theorem C1_counterexample :
    (deform_template_to_scan [((0 : ℚ), 0, 0)] [] [((1 : ℚ), 0, 0)] [] {}
        rigidShiftX).displacements ≠
      List.zipWith vsub3
        (deform_template_to_scan [((0 : ℚ), 0, 0)] [] [((1 : ℚ), 0, 0)] [] {}
          rigidShiftX).deformed_vertices
        ([((0 : ℚ), 0, 0)].map (applyTransform4 rigidShiftX)) := by
  decide

/-- `csr_sum` distributes over concatenation of triplet lists. -/
lemma csr_sum_append (a b : List (ℕ × ℕ × ℚ)) (i j : ℕ) :
    csr_sum (a ++ b) i j = csr_sum a i j + csr_sum b i j := by
  simp [csr_sum, List.filter_append]

/-- `csr_sum` of a cons picks up the head entry when it matches. -/
lemma csr_sum_cons (e : ℕ × ℕ × ℚ) (es : List (ℕ × ℕ × ℚ)) (i j : ℕ) :
    csr_sum (e :: es) i j =
      (if (e.1 == i && e.2.1 == j) = true then e.2.2 else 0) + csr_sum es i j := by
  unfold csr_sum
  rw [List.filter_cons]
  split
  · simp
  · simp

/-- A triplet list whose row indices all differ from `i` contributes
nothing to row `i`. -/
lemma csr_sum_eq_zero_of_fst_ne (es : List (ℕ × ℕ × ℚ)) (x i j : ℕ)
    (hall : ∀ t ∈ es, t.1 = x) (hne : x ≠ i) : csr_sum es i j = 0 := by
  unfold csr_sum
  rw [List.filter_eq_nil_iff.mpr]
  · rfl
  · intro t ht
    have := hall t ht
    simp [this, hne]

/-- `csr_sum` over a flatMap is the sum of the per-block `csr_sum`s. -/
lemma csr_sum_flatMap (g : ℕ → List (ℕ × ℕ × ℚ)) (l : List ℕ) (i j : ℕ) :
    csr_sum (l.flatMap g) i j = (l.map (fun x => csr_sum (g x) i j)).sum := by
  induction l with
  | nil => rfl
  | cons x xs ih =>
    rw [List.flatMap_cons, csr_sum_append, ih, List.map_cons, List.sum_cons]

/-- Summing a map over `range n` that vanishes away from `i`. -/
lemma sum_map_range_eq_single (f : ℕ → ℚ) (i : ℕ)
    (h : ∀ x, x ≠ i → f x = 0) :
    ∀ n, ((List.range n).map f).sum = if i < n then f i else 0 := by
  intro n
  induction n with
  | zero => simp
  | succ m ih =>
    rw [List.range_succ, List.map_append, List.sum_append]
    simp only [List.map_cons, List.map_nil, List.sum_cons, List.sum_nil, add_zero]
    rcases Nat.lt_trichotomy i m with h1 | h1 | h1
    · rw [ih, if_pos h1, if_pos (by omega), h m (by omega), add_zero]
    · subst h1
      rw [ih, if_neg (lt_irrefl i), if_pos (by omega), zero_add]
    · rw [ih, if_neg (by omega), if_neg (by omega), h m (by omega), add_zero]

/-- Every triplet of a Laplacian row block sits in that row. -/
lemma laplacian_row_fst (faces : List Face) (i : ℕ) :
    ∀ t ∈ laplacian_row faces i, t.1 = i := by
  intro t ht
  unfold laplacian_row at ht
  split at ht
  · rcases List.mem_cons.mp ht with rfl | hm
    · rfl
    · obtain ⟨j, _, rfl⟩ := List.mem_map.mp hm
      rfl
  · exact absurd ht (List.not_mem_nil t)

/-- The adjacency lists are duplicate-free. -/
lemma adjacency_neighbors_nodup (faces : List Face) (i : ℕ) :
    (adjacency_neighbors faces i).Nodup := by
  unfold adjacency_neighbors
  exact List.nodup_dedup _

/-- The Laplacian entry function reduces to the row block for `i < n`
and vanishes for `i ≥ n`. -/
lemma build_laplacian_eq (n : ℕ) (faces : List Face) (i j : ℕ) :
    build_laplacian_matrix n faces i j =
      if i < n then csr_sum (laplacian_row faces i) i j else 0 := by
  unfold build_laplacian_matrix laplacian_entries
  rw [csr_sum_flatMap]
  exact sum_map_range_eq_single _ i
    (fun x hx => csr_sum_eq_zero_of_fst_ne _ x i j (laplacian_row_fst faces x) hx) n

/-- `csr_sum` of the `-1` neighbor entries of a duplicate-free list. -/
lemma csr_sum_map_neighbors (i j : ℕ) :
    ∀ ns : List ℕ, ns.Nodup →
      csr_sum (ns.map (fun k => (i, k, (-1 : ℚ)))) i j =
        if j ∈ ns then -1 else 0 := by
  intro ns
  induction ns with
  | nil => intro _; simp [csr_sum]
  | cons a as ih =>
    intro hnd
    rw [List.map_cons, csr_sum_cons, ih (List.Nodup.of_cons hnd)]
    by_cases ha : a = j
    · subst ha
      have hnm : a ∉ as := (List.nodup_cons.mp hnd).1
      simp [hnm]
    · have hb : (i == i && a == j) = false := by
        simp [ha]
      rw [hb]
      by_cases hj : j ∈ as
      · simp [hj, List.mem_cons]
      · have hnm : j ∉ a :: as := by
          intro hm
          rcases List.mem_cons.mp hm with h' | h'
          · exact ha h'.symm
          · exact hj h'
        simp [hj, hnm]

/-- Value of one Laplacian row block at column `j`. -/
lemma csr_sum_laplacian_row (faces : List Face) (i j : ℕ) :
    csr_sum (laplacian_row faces i) i j =
      (if j = i then ((adjacency_neighbors faces i).length : ℚ) else 0)
        - (if j ∈ adjacency_neighbors faces i then 1 else 0) := by
  unfold laplacian_row
  have hnd := adjacency_neighbors_nodup faces i
  by_cases hlen : 0 < (adjacency_neighbors faces i).length
  · rw [if_pos hlen, csr_sum_cons, csr_sum_map_neighbors i j _ hnd]
    by_cases hj : j = i
    · subst hj
      by_cases hm : j ∈ adjacency_neighbors faces j
      · simp [hm]
        ring
      · simp [hm]
    · have hb : (i == i && i == j) = false := by
        simp only [beq_self_eq_true, Bool.true_and, beq_eq_false_iff_ne, ne_eq]
        exact fun h => hj h.symm
      rw [hb]
      by_cases hm : j ∈ adjacency_neighbors faces i <;> simp [hm, hj]
  · rw [if_neg hlen]
    have hnil : adjacency_neighbors faces i = [] :=
      List.eq_nil_of_length_eq_zero (by omega)
    rw [hnil]
    simp [csr_sum]

/-- Membership in the adjacency list is sharing a face edge. -/
lemma mem_adjacency_neighbors (faces : List Face) (i j : ℕ) :
    j ∈ adjacency_neighbors faces i ↔ shares_edge faces i j = true := by
  unfold adjacency_neighbors shares_edge
  simp only [List.mem_dedup, List.mem_map, List.mem_filter, List.mem_flatMap,
    List.any_eq_true, beq_iff_eq]
  constructor
  · rintro ⟨e, ⟨⟨f, hf, he⟩, hei⟩, rfl⟩
    exact ⟨f, hf, e, he, by simp [hei]⟩
  · rintro ⟨f, hf, e, he, hand⟩
    rw [Bool.and_eq_true, beq_iff_eq, beq_iff_eq] at hand
    exact ⟨e, ⟨⟨f, hf, he⟩, hand.1⟩, hand.2⟩

/-- Edge sharing is symmetric: the six directed insertions per face are
closed under swapping. -/
lemma shares_edge_symm (faces : List Face) (i j : ℕ) :
    shares_edge faces i j = shares_edge faces j i := by
  rw [Bool.eq_iff_iff]
  unfold shares_edge facePairs
  simp only [List.any_eq_true, List.mem_cons, List.not_mem_nil, or_false]
  constructor
  · rintro ⟨f, hf, e, he, hand⟩
    rw [Bool.and_eq_true, beq_iff_eq, beq_iff_eq] at hand
    rcases he with rfl | rfl | rfl | rfl | rfl | rfl <;>
      [exact ⟨f, hf, (f.2.1, f.1), by simp, by simp only [Bool.and_eq_true, beq_iff_eq]; exact ⟨hand.2, hand.1⟩⟩;
       exact ⟨f, hf, (f.2.2, f.2.1), by simp, by simp only [Bool.and_eq_true, beq_iff_eq]; exact ⟨hand.2, hand.1⟩⟩;
       exact ⟨f, hf, (f.1, f.2.2), by simp, by simp only [Bool.and_eq_true, beq_iff_eq]; exact ⟨hand.2, hand.1⟩⟩;
       exact ⟨f, hf, (f.1, f.2.1), by simp, by simp only [Bool.and_eq_true, beq_iff_eq]; exact ⟨hand.2, hand.1⟩⟩;
       exact ⟨f, hf, (f.2.1, f.2.2), by simp, by simp only [Bool.and_eq_true, beq_iff_eq]; exact ⟨hand.2, hand.1⟩⟩;
       exact ⟨f, hf, (f.2.2, f.1), by simp, by simp only [Bool.and_eq_true, beq_iff_eq]; exact ⟨hand.2, hand.1⟩⟩]
  · rintro ⟨f, hf, e, he, hand⟩
    rw [Bool.and_eq_true, beq_iff_eq, beq_iff_eq] at hand
    rcases he with rfl | rfl | rfl | rfl | rfl | rfl <;>
      [exact ⟨f, hf, (f.2.1, f.1), by simp, by simp only [Bool.and_eq_true, beq_iff_eq]; exact ⟨hand.2, hand.1⟩⟩;
       exact ⟨f, hf, (f.2.2, f.2.1), by simp, by simp only [Bool.and_eq_true, beq_iff_eq]; exact ⟨hand.2, hand.1⟩⟩;
       exact ⟨f, hf, (f.1, f.2.2), by simp, by simp only [Bool.and_eq_true, beq_iff_eq]; exact ⟨hand.2, hand.1⟩⟩;
       exact ⟨f, hf, (f.1, f.2.1), by simp, by simp only [Bool.and_eq_true, beq_iff_eq]; exact ⟨hand.2, hand.1⟩⟩;
       exact ⟨f, hf, (f.2.1, f.2.2), by simp, by simp only [Bool.and_eq_true, beq_iff_eq]; exact ⟨hand.2, hand.1⟩⟩;
       exact ⟨f, hf, (f.2.2, f.1), by simp, by simp only [Bool.and_eq_true, beq_iff_eq]; exact ⟨hand.2, hand.1⟩⟩]

/-- With valid faces, adjacency stays inside `range n`. -/
lemma adjacency_neighbors_lt (n : ℕ) (faces : List Face)
    (h : ∀ f ∈ faces, f.1 < n ∧ f.2.1 < n ∧ f.2.2 < n) (i j : ℕ)
    (hj : j ∈ adjacency_neighbors faces i) : j < n := by
  rw [mem_adjacency_neighbors] at hj
  unfold shares_edge facePairs at hj
  simp only [List.any_eq_true, List.mem_cons, List.not_mem_nil, or_false] at hj
  obtain ⟨f, hf, e, he, hand⟩ := hj
  rw [Bool.and_eq_true, beq_iff_eq, beq_iff_eq] at hand
  obtain ⟨a1, a2, a3⟩ := h f hf
  rcases he with rfl | rfl | rfl | rfl | rfl | rfl <;> omega

/-- Removing one element from a duplicate-free list shortens it by its
multiplicity (0 or 1). -/
lemma list_nodup_filter_count (i : ℕ) :
    ∀ l : List ℕ, l.Nodup →
      (l.filter (fun j => j ≠ i)).length + (if i ∈ l then 1 else 0) = l.length := by
  intro l
  induction l with
  | nil => intro _; simp
  | cons a as ih =>
    intro hnd
    obtain ⟨hna, hnd'⟩ := List.nodup_cons.mp hnd
    specialize ih hnd'
    rw [List.filter_cons]
    by_cases hai : a = i
    · subst hai
      have hkeep : as.filter (fun j => j ≠ a) = as := by
        apply List.filter_eq_self.mpr
        intro b hb
        simp only [ne_eq, decide_eq_true_eq]
        intro hba
        exact hna (hba ▸ hb)
      have hda : ¬ (decide (a ≠ a) = true) := by simp
      rw [if_neg hda, hkeep, if_pos (List.mem_cons_self a as), List.length_cons]
    · have hd : (decide (a ≠ i)) = true := by simp [hai]
      rw [hd]
      by_cases hmem2 : i ∈ as
      · rw [if_pos (List.mem_cons_of_mem a hmem2)]
        rw [if_pos hmem2] at ih
        simp only [if_true, List.length_cons]
        omega
      · have h1 : i ∉ a :: as := by
          intro hm
          rcases List.mem_cons.mp hm with hh | hh
          · exact hai hh.symm
          · exact hmem2 hh
        rw [if_neg h1]
        rw [if_neg hmem2] at ih
        simp only [if_true, List.length_cons]
        omega

/-- C7: for valid faces (all indices below the vertex count), the
Laplacian has `L i i` = number of distinct edge-neighbors of `i`,
`L i j = -1` exactly for edge-neighbors `j ≠ i` (0 otherwise), is
symmetric, and has zero row sums. -/
theorem C7_laplacian (n : ℕ) (faces : List Face)
    (h : ∀ f ∈ faces, f.1 < n ∧ f.2.1 < n ∧ f.2.2 < n) :
    (∀ i, i < n → build_laplacian_matrix n faces i i =
      (((List.range n).filter (fun j => is_edge_neighbor faces i j)).length : ℚ)) ∧
    (∀ i j, i < n → j < n → i ≠ j →
      build_laplacian_matrix n faces i j =
        (if is_edge_neighbor faces i j then (-1 : ℚ) else 0)) ∧
    (∀ i j, build_laplacian_matrix n faces i j = build_laplacian_matrix n faces j i) ∧
    (∀ i, i < n → ∑ j ∈ Finset.range n, build_laplacian_matrix n faces i j = 0) := by
  have hchar : ∀ i j, i < n → build_laplacian_matrix n faces i j =
      (if j = i then ((adjacency_neighbors faces i).length : ℚ) else 0)
        - (if j ∈ adjacency_neighbors faces i then 1 else 0) := by
    intro i j hi
    rw [build_laplacian_eq, if_pos hi, csr_sum_laplacian_row]
  refine ⟨?_, ?_, ?_, ?_⟩
  · -- diagonal
    intro i hi
    rw [hchar i i hi, if_pos rfl]
    have hnd := adjacency_neighbors_nodup faces i
    have hnd1 : ((List.range n).filter (fun j => is_edge_neighbor faces i j)).Nodup :=
      (List.nodup_range n).filter _
    have hnd2 : ((adjacency_neighbors faces i).filter (fun j => j ≠ i)).Nodup :=
      hnd.filter _
    have hset : ((List.range n).filter (fun j => is_edge_neighbor faces i j)).toFinset
        = ((adjacency_neighbors faces i).filter (fun j => j ≠ i)).toFinset := by
      ext a
      simp only [List.mem_toFinset, List.mem_filter, List.mem_range, is_edge_neighbor,
        Bool.and_eq_true, Bool.not_eq_true', beq_eq_false_iff_ne, ne_eq,
        decide_eq_true_eq]
      constructor
      · rintro ⟨_, hne, hs⟩
        exact ⟨(mem_adjacency_neighbors faces i a).mpr hs, hne⟩
      · rintro ⟨hm, hne⟩
        exact ⟨adjacency_neighbors_lt n faces h i a hm, hne,
          (mem_adjacency_neighbors faces i a).mp hm⟩
    have h1 : ((List.range n).filter (fun j => is_edge_neighbor faces i j)).length
        = ((adjacency_neighbors faces i).filter (fun j => j ≠ i)).length := by
      rw [← List.toFinset_card_of_nodup hnd1, ← List.toFinset_card_of_nodup hnd2, hset]
    have h2 := list_nodup_filter_count i (adjacency_neighbors faces i) hnd
    rw [h1]
    by_cases hm : i ∈ adjacency_neighbors faces i
    · rw [if_pos hm]
      rw [if_pos hm] at h2
      have := congrArg (fun k : ℕ => (k : ℚ)) h2
      push_cast at this
      linarith
    · rw [if_neg hm]
      rw [if_neg hm] at h2
      have := congrArg (fun k : ℕ => (k : ℚ)) h2
      push_cast at this
      linarith
  · -- off-diagonal
    intro i j hi hj hne
    rw [hchar i j hi, if_neg (fun hh => hne hh.symm)]
    by_cases hm : j ∈ adjacency_neighbors faces i
    · have hs : shares_edge faces i j = true := (mem_adjacency_neighbors faces i j).mp hm
      have hji : (j == i) = false := beq_eq_false_iff_ne.mpr (fun hh => hne hh.symm)
      have hcond : is_edge_neighbor faces i j = true := by
        unfold is_edge_neighbor
        rw [hji, hs]
        rfl
      rw [if_pos hm, hcond]
      simp
    · have hs : shares_edge faces i j = false := by
        cases hb : shares_edge faces i j
        · rfl
        · exact absurd ((mem_adjacency_neighbors faces i j).mpr hb) hm
      have hcond : is_edge_neighbor faces i j = false := by
        unfold is_edge_neighbor
        rw [hs]
        simp
      rw [if_neg hm, hcond]
      simp
  · -- symmetry
    intro i j
    by_cases hi : i < n <;> by_cases hj : j < n
    · by_cases hij : i = j
      · subst hij; rfl
      · rw [hchar i j hi, hchar j i hj, if_neg (fun hh => hij hh.symm), if_neg hij]
        have hiff : (j ∈ adjacency_neighbors faces i) ↔ (i ∈ adjacency_neighbors faces j) := by
          rw [mem_adjacency_neighbors, mem_adjacency_neighbors, shares_edge_symm]
        by_cases hm : j ∈ adjacency_neighbors faces i
        · rw [if_pos hm, if_pos (hiff.mp hm)]
        · rw [if_neg hm, if_neg (fun hh => hm (hiff.mpr hh))]
    · rw [hchar i j hi, build_laplacian_eq n faces j i, if_neg hj,
        if_neg (fun hh : j = i => hj (hh ▸ hi)),
        if_neg (fun hm => hj (adjacency_neighbors_lt n faces h i j hm))]
      simp
    · rw [build_laplacian_eq n faces i j, if_neg hi, hchar j i hj,
        if_neg (fun hh : i = j => hi (hh ▸ hj)),
        if_neg (fun hm => hi (adjacency_neighbors_lt n faces h j i hm))]
      simp
    · rw [build_laplacian_eq n faces i j, if_neg hi,
        build_laplacian_eq n faces j i, if_neg hj]
  · -- zero row sums
    intro i hi
    rw [Finset.sum_congr rfl (fun j _ => hchar i j hi), Finset.sum_sub_distrib]
    rw [Finset.sum_ite_eq' (Finset.range n) i
      (fun _ => ((adjacency_neighbors faces i).length : ℚ)),
      if_pos (Finset.mem_range.mpr hi)]
    have hsub : (adjacency_neighbors faces i).toFinset ⊆ Finset.range n := by
      intro a ha
      exact Finset.mem_range.mpr
        (adjacency_neighbors_lt n faces h i a (List.mem_toFinset.mp ha))
    have h2 : ∑ j ∈ Finset.range n,
        (if j ∈ adjacency_neighbors faces i then (1 : ℚ) else 0)
          = ((adjacency_neighbors faces i).length : ℚ) := by
      simp only [← List.mem_toFinset]
      rw [Finset.sum_ite_mem, Finset.inter_eq_right.mpr hsub, Finset.sum_const,
        nsmul_eq_mul, mul_one,
        List.toFinset_card_of_nodup (adjacency_neighbors_nodup faces i)]
    rw [h2, sub_self]

/-- C7 (witness): for the triangle `(0,1,2)` on 3 vertices, the diagonal
entry at vertex 0 counts its two edge-neighbors. -/
theorem C7_laplacian_witness :
    build_laplacian_matrix 3 [(0, 1, 2)] 0 0 =
      (((List.range 3).filter (fun j => is_edge_neighbor [(0, 1, 2)] 0 j)).length : ℚ) :=
  (C7_laplacian 3 [(0, 1, 2)] (by decide)).1 0 (by decide)

end ModelMaker
